import Mathlib

/-!
# termshark: command builder, cancellable loaders and field completion

A shallow embedding of

* `convs/loader.go` and `capinfo/loader.go`: the command builder
  `commands.Convs`, the load routine `loadConvAsync` / `loadCapinfoAsync`
  and the killer/waiter goroutine it spawns;
* `fields.go`: `TSharkFields.Completions`.

Go strings are Lean strings.  Calls made on collaborators that live in other
packages (`pcap.HandleBegin`, `pcap.HandleEnd`, `pcap.HandleError`, the
callback sink, the process handle) are recorded as events of a trace, in
program order.
-/

namespace Termshark

/-! ## convs/loader.go: `commands.Convs` -/

/-- The `pcap.Command` built by a command builder: the executable and the
argument list handed to `exec.Command`. -/
structure Command where
  bin : String
  args : List String
  deriving DecidableEq, Repr

/-- The assignment `args[len(args)-1] = v` on a slice. -/
def setLast (args : List String) (v : String) : List String :=
  args.set (args.length - 1) v

/-- The value `args[len(args)-1]` of a slice. -/
def lastArg (args : List String) : String :=
  args.getD (args.length - 1) ""

/-- One iteration of the `for _, conv := range convs` loop of `commands.Convs`:
append `-z` and `fmt.Sprintf("conv,%s", conv)`, then, when the filter is not
empty, overwrite the last argument with
`fmt.Sprintf("%s,%s", args[len(args)-1], filter)`. -/
def convsIter (filter : String) (args : List String) (conv : String) : List String :=
  let args := args ++ ["-z", "conv," ++ conv]
  if filter != "" then setLast args (lastArg args ++ "," ++ filter) else args

/-- The argument list computed by `commands.Convs`. -/
def convsArgs (pcapfile : String) (convs : List String) (filter : String)
    (abs resolve : Bool) : List String :=
  let args := ["-q", "-r", pcapfile]
  let args := if abs then args ++ ["-t", "a"] else args
  let args := if !resolve then args ++ ["-n"] else args
  convs.foldl (convsIter filter) args

/-- The method `commands.Convs`; `tsharkBin` stands for `termshark.TSharkBin()`. -/
def commands.Convs (tsharkBin : String) (pcapfile : String) (convs : List String)
    (filter : String) (abs resolve : Bool) : Command :=
  { bin := tsharkBin, args := convsArgs pcapfile convs filter abs resolve }

/-- The `-z` value the specification gives for one category. -/
def convToken (filter conv : String) : String :=
  if filter = "" then "conv," ++ conv else "conv," ++ conv ++ "," ++ filter

/-! ## The process handle, the callback sink and the trace of a job -/

/-- A Go `error` value as the loaders see it: its text and whether its dynamic
type is `*exec.ExitError` (the only thing the waiter tests). -/
structure GoError where
  msg : String
  isExitError : Bool
  deriving DecidableEq, Repr

/-- A value stored in the map handed to `gowid.WithKVs`. -/
inductive KVValue where
  | str (s : String)
  | err (e : GoError)
  deriving DecidableEq, Repr

/-- What is passed to `pcap.HandleError`: an error of a collaborator, or
`gowid.WithKVs(base, kvs)`. -/
inductive ErrorValue where
  | plain (e : GoError)
  | withKVs (base : String) (kvs : List (String × KVValue))
  deriving DecidableEq, Repr

/-- A `pcap.IPcapCommand` given by what its methods answer during one job. -/
structure IPcapCommand where
  /-- the call `String()` -/
  desc : String
  /-- the call `StdoutReader()`: an error, or the text the reader yields up to EOF -/
  stdoutReader : Except GoError String
  /-- the call `Start()`: `none` is the nil error -/
  start : Option GoError
  /-- the call `Pid()` once started -/
  pid : Int
  /-- the call `Wait()`: `none` is the nil error -/
  wait : Option GoError

/-- The callback sink as far as the load routine depends on it: whether it ever
signals the channel handed to the data notification and the one handed to the
end notification. -/
structure Sink where
  dataAck : Bool
  endAck : Bool
  deriving DecidableEq, Repr

/-- The fields of `Loader` that the load routine and the waiter read or write.
`cancelFn` is `true` when `convsCancelFn` / `capinfoCancelFn` is not nil;
`cmd` is `convsCmd` / `capinfoCmd`, `none` being nil. -/
structure Loader where
  SuppressErrors : Bool
  cancelFn : Bool
  cmd : Option IPcapCommand

/-- The loader `NewLoader` returns: only `cmds` and the main context are set,
the command field is nil. -/
def NewLoader : Loader :=
  { SuppressErrors := false, cancelFn := false, cmd := none }

/-- The calls a job makes on its collaborators, as recorded in a trace. -/
inductive Event where
  /-- the call `termshark.TrackedGo(...)` starting the killer/waiter goroutine -/
  | spawnKiller
  /-- the call `cmd.StdoutReader()` -/
  | stdoutReader
  /-- the call `pcap.HandleError(err, cb)` -/
  | handleError (e : ErrorValue)
  /-- the call `pcap.HandleBegin(cb)` -/
  | handleBegin
  /-- the call `pcap.HandleEnd(cb)` -/
  | handleEnd
  /-- the call `cmd.Start()` -/
  | start
  /-- the send `procChan <- pid`; the killer selects on the channel until it
  has received from it, so the send completes -/
  | sendPid (pid : Int)
  /-- the call `close(procChan)` -/
  | closeProcChan
  /-- the call `buf.ReadFrom(out)` -/
  | readFrom
  /-- the call `cb.OnData(data, ch)` / `cb.OnCapinfoData(data, ch)` -/
  | onData (data : String)
  /-- the receive `<-ch` after the data notification, once signalled -/
  | dataAcked
  /-- the call `c.convsCancelFn()` / `c.capinfoCancelFn()` -/
  | cancelFn
  /-- the call `cb.AfterDataEnd(success, ch)` / `cb.AfterCapinfoEnd(success, ch)` -/
  | afterEnd (success : Bool)
  /-- the receive `<-ch` after the end notification, once signalled -/
  | endAcked
  /-- the call `kill()`, that is `termshark.KillIfPossible(cmd)`; `true` when `cmd` is
  not nil at the call -/
  | kill (hasCmd : Bool)
  /-- the call `cmd.Wait()` -/
  | wait
  /-- a nil `c.convsCmd` dereferenced by the waiter -/
  | nilDeref
  deriving DecidableEq, Repr

/-- A statement of the load routine: a call, or a receive on an
acknowledgment channel that returns only if the sink signals it. -/
inductive Stmt where
  | call (e : Event)
  | await (signalled : Bool) (e : Event)
  deriving DecidableEq, Repr

/-- Run statements in order; a receive that is never signalled blocks the
routine for good.  The result is the trace and whether the end was reached. -/
def runStmts : List Stmt → List Event × Bool
  | [] => ([], true)
  | Stmt.call e :: rest => let r := runStmts rest; (e :: r.1, r.2)
  | Stmt.await true e :: rest => let r := runStmts rest; (e :: r.1, r.2)
  | Stmt.await false _ :: _ => ([], false)

/-! ## The load routine (`loadConvAsync`, `loadCapinfoAsync`) -/

/-- The first deferred function: `if pid == 0 { close(procChan) }`. -/
def deferClose (pid : Int) : List Stmt :=
  if pid = 0 then [Stmt.call Event.closeProcChan] else []

/-- The second deferred function: the end notification and the wait for its
acknowledgment. -/
def deferAfterEnd (sink : Sink) (_pid : Int) : List Stmt :=
  [Stmt.call (Event.afterEnd true), Stmt.await sink.endAck Event.endAcked]

/-- The third deferred function: `pcap.HandleEnd(cb)`. -/
def deferHandleEnd (_pid : Int) : List Stmt :=
  [Stmt.call Event.handleEnd]

/-- The body of the load routine up to its `return`: the statements executed,
the deferred functions registered (latest first, each reading `pid` when it
runs) and the value of the local `pid` at the return. -/
structure Body where
  stmts : List Stmt
  defers : List (Int → List Stmt)
  pid : Int

/-- The body of `loadConvAsync` / `loadCapinfoAsync` for the process handle
`h` obtained from the command builder; `startMsg` is the text before the
handle in the `fmt.Errorf` of a failed start. -/
def loadBody (startMsg : String) (h : IPcapCommand) (sink : Sink) : Body :=
  let pre := [Stmt.call Event.spawnKiller, Stmt.call Event.stdoutReader]
  match h.stdoutReader with
  | Except.error err =>
    { stmts := pre ++ [Stmt.call (Event.handleError (ErrorValue.plain err))],
      defers := [deferClose],
      pid := 0 }
  | Except.ok out =>
    let pre := pre ++ [Stmt.call Event.handleBegin, Stmt.call Event.start]
    let defers := [deferHandleEnd, deferAfterEnd sink, deferClose]
    match h.start with
    | some err =>
      let err : GoError :=
        { msg := startMsg ++ h.desc ++ ": " ++ err.msg, isExitError := false }
      { stmts := pre ++ [Stmt.call (Event.handleError (ErrorValue.plain err))],
        defers := defers,
        pid := 0 }
    | none =>
      { stmts := pre ++ [Stmt.call (Event.sendPid h.pid),
                         Stmt.call Event.readFrom,
                         Stmt.call (Event.onData out),
                         Stmt.await sink.dataAck Event.dataAcked,
                         Stmt.call Event.cancelFn],
        defers := defers,
        pid := h.pid }

/-- What a run of the load routine leaves behind. -/
structure LoadResult where
  /-- the loader after the run -/
  loader : Loader
  /-- the calls made, in order -/
  trace : List Event
  /-- whether the routine returned (it does not when an acknowledgment never
  comes) -/
  returned : Bool

/-- The load routine on the process handle `h`: set the job's cancel function
and command field, run the body, then the deferred functions, latest first. -/
def loadAsync (startMsg : String) (c : Loader) (h : IPcapCommand) (sink : Sink) :
    LoadResult :=
  let c := { c with cancelFn := true, cmd := some h }
  let b := loadBody startMsg h sink
  let r := runStmts (b.stmts ++ b.defers.flatMap (fun d => d b.pid))
  { loader := c, trace := r.1, returned := r.2 }

/-- The method `Loader.loadConvAsync`; `cmds` is the loader's
`ILoaderCmds.Convs`. -/
def loadConvAsync (c : Loader)
    (cmds : String → List String → String → Bool → Bool → IPcapCommand)
    (pcapf : String) (convs : List String) (filter : String) (abs resolve : Bool)
    (cb : Sink) : LoadResult :=
  loadAsync "Error starting " c (cmds pcapf convs filter abs resolve) cb

/-- The method `Loader.loadCapinfoAsync`; `cmds` is the loader's
`ILoaderCmds.Capinfo`. -/
def loadCapinfoAsync (c : Loader) (cmds : String → IPcapCommand) (pcapf : String)
    (cb : Sink) : LoadResult :=
  loadAsync "Error starting capinfo " c (cmds pcapf) cb

/-! ## The killer/waiter goroutine -/

/-- What the `select` of the killer can receive: a value sent on `procChan`,
the zero value of a closed `procChan`, or the job context being done. -/
inductive Signal where
  | pid (v : Int)
  | closed
  | done
  deriving DecidableEq, Repr

/-- The locals of the goroutine while it is in the `select` loop.  `procChan`
and `cancelled` are `true` while the local channel variable is not nil. -/
structure KillerState where
  procChan : Bool
  cancelled : Bool
  cmd : Option IPcapCommand
  inLoop : Bool
  trace : List Event

/-- The locals on entry: both channels set, `cmd` nil. -/
def KillerState.init : KillerState :=
  { procChan := true, cancelled := true, cmd := none, inLoop := true, trace := [] }

/-- The closure `kill`. -/
def KillerState.kill (s : KillerState) : KillerState :=
  { s with trace := s.trace ++ [Event.kill s.cmd.isSome] }

/-- The test after the `select`: `if cancelled == nil && procChan == nil { break loop }`. -/
def KillerState.exitCheck (s : KillerState) : KillerState :=
  if !s.cancelled && !s.procChan then { s with inLoop := false } else s

/-- The case `pid := <-procChan` with the value received. -/
def KillerState.onPid (origCmd : Option IPcapCommand) (s : KillerState) (pid : Int) :
    KillerState :=
  let s := { s with procChan := false }
  if pid ≠ 0 then
    let s := { s with cmd := origCmd }
    if !s.cancelled then s.kill else s
  else s

/-- The case `<-cancelled`. -/
def KillerState.onDone (s : KillerState) : KillerState :=
  let s := { s with cancelled := false }
  if s.cmd.isSome then s.kill else s

/-- One signal offered to the goroutine.  A nil channel is never selected, so
a signal for a channel variable already set to nil, or one arriving after
the loop was left, changes nothing. -/
def killerStep (origCmd : Option IPcapCommand) (s : KillerState) : Signal → KillerState
  | Signal.pid v =>
    if s.inLoop && s.procChan then (s.onPid origCmd v).exitCheck else s
  | Signal.closed =>
    if s.inLoop && s.procChan then (s.onPid origCmd 0).exitCheck else s
  | Signal.done =>
    if s.inLoop && s.cancelled then s.onDone.exitCheck else s

/-- The `select` loop run on a sequence of signals. -/
def killerLoop (origCmd : Option IPcapCommand) (sigs : List Signal) : KillerState :=
  sigs.foldl (killerStep origCmd) KillerState.init

/-- Number of `kill()` calls in a trace. -/
def killCount (t : List Event) : Nat :=
  t.countP (fun e => match e with | Event.kill _ => true | _ => false)

/-- The code after the loop: wait for the process when `cmd` is set and report
an `*exec.ExitError` unless errors are suppressed. -/
def waiter (c : Loader) (cmd : Option IPcapCommand) : List Event :=
  match cmd with
  | none => []
  | some k =>
    Event.wait ::
      match k.wait with
      | none => []
      | some err =>
        if !c.SuppressErrors then
          if err.isExitError then
            match c.cmd with
            | none => [Event.nilDeref]
            | some cc =>
              [Event.handleError (ErrorValue.withKVs "BadCommand"
                [("command", KVValue.str cc.desc), ("error", KVValue.err err)])]
          else []
        else []

/-- The whole goroutine on a sequence of signals: `origCmd` is the loader's
command field; while the loop has not been left nothing after it runs. -/
def killerTask (c : Loader) (sigs : List Signal) : List Event :=
  let s := killerLoop c.cmd sigs
  if s.inLoop then s.trace else s.trace ++ waiter c s.cmd

/-! ## Reading a trace -/

/-- Number of `pcap.HandleError` calls. -/
def errorCount (t : List Event) : Nat :=
  t.countP (fun e => match e with | Event.handleError _ => true | _ => false)

/-- Number of data notifications. -/
def dataCount (t : List Event) : Nat :=
  t.countP (fun e => match e with | Event.onData _ => true | _ => false)

/-- Number of end notifications (`AfterDataEnd` / `AfterCapinfoEnd`). -/
def endCount (t : List Event) : Nat :=
  t.countP (fun e => match e with | Event.afterEnd _ => true | _ => false)

/-- Number of sends on `procChan`. -/
def sendCount (t : List Event) : Nat :=
  t.countP (fun e => match e with | Event.sendPid _ => true | _ => false)

/-- Number of `close(procChan)`. -/
def closeCount (t : List Event) : Nat :=
  t.countP (fun e => match e with | Event.closeProcChan => true | _ => false)

/-- What the killer receives on `procChan` from a run of the load routine:
the value of the first send, or the zero value once the channel is closed. -/
def procChanSignal : List Event → Option Signal
  | [] => none
  | Event.sendPid v :: _ => some (Signal.pid v)
  | Event.closeProcChan :: _ => some Signal.closed
  | _ :: rest => procChanSignal rest

/-- The calls made on behalf of the callback sink, in order. -/
def notifications (t : List Event) : List Event :=
  t.filter (fun e => match e with
    | Event.handleBegin => true
    | Event.handleEnd => true
    | Event.handleError _ => true
    | Event.onData _ => true
    | Event.afterEnd _ => true
    | _ => false)

/-! ## fields.go: the field table and `TSharkFields.Completions` -/

/-- The Go type `mapOrString`: its only field `M`, a map from names to
pointers.  A Go map is the list of its entries, keys distinct, in the order in
which `range` happens to visit them; `none` is the nil map, and a `none` value
is a nil pointer. -/
inductive mapOrString where
  | mk (M : Option (List (String × Option mapOrString)))

/-- The field `M`. -/
def mapOrString.M : mapOrString → Option (List (String × Option mapOrString))
  | mapOrString.mk m => m

/-- A Go map of `mapOrString` pointers. -/
abbrev FieldMap := Option (List (String × Option mapOrString))

/-- The entries `range` visits: none for a nil map. -/
def FieldMap.entries (m : FieldMap) : List (String × Option mapOrString) :=
  m.getD []

/-- The keys `range` visits, in visiting order. -/
def FieldMap.keys (m : FieldMap) : List String :=
  m.entries.map Prod.fst

/-- The function `unicode.IsSpace`. -/
def isSpace (c : Char) : Bool :=
  c = ' ' || c = '\t' || c = '\n' || c = '\r' || c.toNat = 0x0B || c.toNat = 0x0C
    || c.toNat = 0x85 || c.toNat = 0xA0 || c.toNat = 0x1680
    || (0x2000 ≤ c.toNat && c.toNat ≤ 0x200A)
    || c.toNat = 0x2028 || c.toNat = 0x2029 || c.toNat = 0x202F
    || c.toNat = 0x205F || c.toNat = 0x3000

/-- The scan of `strings.Fields`: `cur` is the word being read. -/
def fieldsFrom : List Char → List Char → List String
  | cur, [] => if cur = [] then [] else [String.mk cur]
  | cur, c :: cs =>
    if isSpace c then
      if cur = [] then fieldsFrom [] cs else String.mk cur :: fieldsFrom [] cs
    else fieldsFrom (cur ++ [c]) cs

/-- The function `strings.Fields`: the maximal runs of non-space characters. -/
def Fields (s : String) : List String :=
  fieldsFrom [] s.data

/-- The test `strings.HasSuffix(txt, " ")`. -/
def endsInSpace (txt : String) : Bool :=
  txt.data.getLast? = some ' '

/-- The test `strings.HasPrefix(s, p)`. -/
def HasPrefix (s p : String) : Bool :=
  p.data.isPrefixOf s.data

/-- Cut a text at its first `.`, if it has one. -/
def cutDot : List Char → Option (List Char × List Char)
  | [] => none
  | c :: cs =>
    if c = '.' then some ([], cs)
    else match cutDot cs with
      | none => none
      | some (a, b) => some (c :: a, b)

/-- The call `strings.SplitN(s, ".", 2)`. -/
def SplitN2 (s : String) : List String :=
  match cutDot s.data with
  | none => [s]
  | some (a, b) => [String.mk a, String.mk b]

/-- The function `strings.Join`. -/
def Join : List String → String → String
  | [], _ => ""
  | [a], _ => a
  | a :: b :: rest, sep => a ++ sep ++ Join (b :: rest) sep

/-- The order of `sort.Strings`: strings compare character by character, which
on UTF-8 text is the byte order Go uses. -/
def strLE (a b : String) : Prop := a.data ≤ b.data

instance strLE.decidable : DecidableRel strLE :=
  fun a b => inferInstanceAs (Decidable (a.data ≤ b.data))

instance strLE.isTotal : IsTotal String strLE := ⟨fun a b => le_total a.data b.data⟩

instance strLE.isTrans : IsTrans String strLE :=
  ⟨fun a b c (h1 : a.data ≤ b.data) (h2 : b.data ≤ c.data) => le_trans h1 h2⟩

instance strLE.isAntisymm : IsAntisymm String strLE :=
  ⟨fun a b (h1 : a.data ≤ b.data) (h2 : b.data ≤ a.data) => String.ext (le_antisymm h1 h2)⟩

/-- The call `sort.Strings(res)`. -/
def sortStrings (res : List String) : List String :=
  res.insertionSort strLE

/-- The locals of the descent loop of `Completions`. -/
structure Walk where
  prefs : List String
  cur : FieldMap
  failed : Bool

/-- One iteration of `for i := 0; i < len(fields)-1; i++` on `fields[i]`;
after a `break` nothing more happens. -/
def walkStep (w : Walk) (f : String) : Walk :=
  if w.failed then w
  else match w.cur with
    | none => { w with failed := true }
    | some m =>
      match m.lookup f with
      | some (some val) => { prefs := w.prefs ++ [f], cur := val.M, failed := false }
      | _ => { w with failed := true }

/-- The descent loop over all but the last element of `fields`. -/
def walk (fields : List String) (top : FieldMap) : Walk :=
  fields.dropLast.foldl walkStep { prefs := [], cur := top, failed := false }

/-- The word `field` that `Completions` completes. -/
def completionField (txt : String) : String :=
  if !endsInSpace txt && txt != "" then
    match (Fields txt).getLast? with
    | some f => f
    | none => ""
  else ""

/-- The list `TSharkFields.Completions` hands to the callback; `fields` is
`t.fields` once `Init` has run, `none` when it is still nil. -/
def Completions (fields : Option mapOrString) (txt : String) : List String :=
  match fields with
  | none => []
  | some top =>
    let parts := SplitN2 (completionField txt)
    let w := walk parts top.M
    let res :=
      if !w.failed then
        (w.cur.keys.filter (fun k => HasPrefix k (parts.getLast?.getD ""))).map
          (fun k => Join (w.prefs ++ [k]) ".")
      else []
    sortStrings res

/-! ### `InitNoCache` -/

/-- The scan of `strings.Split(line, "\t")`: `cur` is the piece being read. -/
def splitTabsFrom : List Char → List Char → List String
  | cur, [] => [String.mk cur]
  | cur, c :: cs =>
    if c = '\t' then String.mk cur :: splitTabsFrom [] cs
    else splitTabsFrom (cur ++ [c]) cs

/-- The call `strings.Split(line, "\t")`. -/
def splitTabs (line : String) : List String :=
  splitTabsFrom [] line.data

/-- A fresh `&mapOrString{M: make(map[string]*mapOrString)}`. -/
def newNode : mapOrString :=
  mapOrString.mk (some [])

/-- The entries of a map after the value under an existing key was changed
in place. -/
def setValue (es : List (String × Option mapOrString)) (k : String)
    (v : Option mapOrString) : List (String × Option mapOrString) :=
  es.map (fun p => if p.1 = k then (p.1, v) else p)

/-- The loop `for i := 0; i < len(protos); i++` of `InitNoCache` started at the
node `cur`: follow the entry named `protos[i]`, creating it when it is
missing.  The result is the node with the changes made below it; `none` is a
run-time panic (a nil map assigned to, or a nil pointer followed). -/
def insertPath : List String → mapOrString → Option mapOrString
  | [], cur => some cur
  | p :: ps, cur =>
    match cur.M with
    | none => none
    | some es =>
      match es.lookup p with
      | some (some val) =>
        match insertPath ps val with
        | some val' => some (mapOrString.mk (some (setValue es p (some val'))))
        | none => none
      | some none => if ps = [] then some cur else none
      | none =>
        match insertPath ps newNode with
        | some next => some (mapOrString.mk (some (es ++ [(p, some next)])))
        | none => none

/-- The body of the scanner loop of `InitNoCache` on one line of the output of
`tshark -G fields`. -/
def initLine (top : mapOrString) (line : String) : Option mapOrString :=
  if HasPrefix line "F" then
    match (splitTabs line)[2]? with
    | none => none
    | some field =>
      let protos := SplitN2 field
      if protos.length > 1 then insertPath protos top else some top
  else if HasPrefix line "P" then
    match (splitTabs line)[2]? with
    | none => none
    | some field =>
      match top.M with
      | none => none
      | some es =>
        match es.lookup field with
        | some _ => some top
        | none => some (mapOrString.mk (some (es ++ [(field, some newNode)])))
  else some top

/-- The table `InitNoCache` builds; `lines` are the lines `scanner.Scan()`
yields from the output of `tshark -G fields`, in order (the scanner stops at
the end of the output or at the first line too long for its buffer, and the
code never reads its error, so these may be only the first lines of the
output); `none` is a run-time panic. -/
def InitNoCache (lines : List String) : Option mapOrString :=
  lines.foldlM initLine newNode

/-- A node whose map is allocated and has distinct keys. -/
def NodeOk (v : mapOrString) : Prop :=
  ∃ es, v.M = some es ∧ (es.map Prod.fst).Nodup

/-- The invariant of the table under construction in `InitNoCache`: the top
map is allocated with distinct keys, and every entry points to a node whose
map is allocated with distinct keys. -/
def TableOk (t : mapOrString) : Prop :=
  ∃ es, t.M = some es ∧ (es.map Prod.fst).Nodup
    ∧ ∀ p ∈ es, ∃ v, p.2 = some v ∧ NodeOk v

/-! ### The specification of `Completions` -/

/-- The last whitespace-separated word of a text, empty when the text is
empty or ends in a space. -/
def lastWord (txt : String) : String :=
  if txt = "" ∨ endsInSpace txt = true then ""
  else (Fields txt).getLast?.getD ""

/-- The top-level keys of a table. -/
def topKeys (t : mapOrString) : List String :=
  FieldMap.keys t.M

/-- The keys under the top-level entry `a`, `none` when there is no such
entry. -/
def subKeys (t : mapOrString) (a : String) : Option (List String) :=
  match (FieldMap.entries t.M).lookup a with
  | some (some v) => some (FieldMap.keys v.M)
  | _ => none

/-- A loaded table: the keys of every map are distinct and no entry of the
top-level map is a nil pointer. -/
def Loaded (t : mapOrString) : Prop :=
  (topKeys t).Nodup ∧
    ∀ p ∈ FieldMap.entries t.M, ∃ v, p.2 = some v ∧ (FieldMap.keys v.M).Nodup

/-- The completions the specification gives for the word `w`: the top-level
keys with prefix `w` when `w` has no dot, else, for `w = a.b` cut at the first
dot, `a.k` for every key `k` under `a` with prefix `b`. -/
def IsCompletion (t : mapOrString) (w c : String) : Prop :=
  ('.' ∉ w.data ∧ c ∈ topKeys t ∧ HasPrefix c w = true) ∨
  (∃ a b : String, w = a ++ "." ++ b ∧ '.' ∉ a.data ∧
    ∃ ks, subKeys t a = some ks ∧ ∃ k ∈ ks, HasPrefix k b = true ∧ c = a ++ "." ++ k)

/-- Two tables hold the same maps, possibly visited in different orders. -/
def SameMaps (t u : mapOrString) : Prop :=
  (topKeys t).Perm (topKeys u) ∧
    ∀ a, match subKeys t a, subKeys u a with
      | some ks, some ls => ks.Perm ls
      | none, none => True
      | _, _ => False

/-- The completions of the specification before sorting, in map order. -/
def specList (t : mapOrString) (w : String) : List String :=
  match cutDot w.data with
  | none => (topKeys t).filter (fun k => HasPrefix k w)
  | some (a, b) =>
    match subKeys t (String.mk a) with
    | some ks => (ks.filter (fun k => HasPrefix k (String.mk b))).map
        (fun k => String.mk a ++ "." ++ k)
    | none => []

/-! ## The history of the killer and its closed form -/

/-- The value the killer receives first on `procChan` in a sequence of
signals, the zero value standing for the closed channel. -/
def firstPid : List Signal → Option Int
  | [] => none
  | Signal.pid v :: _ => some v
  | Signal.closed :: _ => some 0
  | Signal.done :: rest => firstPid rest

/-- Whether the first value received on `procChan` is a valid identifier. -/
def validPid (sigs : List Signal) : Bool :=
  match firstPid sigs with
  | some v => v ≠ 0
  | none => false

/-- Whether the cancellation is among the signals. -/
def doneSeen : List Signal → Bool
  | [] => false
  | Signal.done :: _ => true
  | _ :: rest => doneSeen rest

/-- The invariant of the select loop behind the kill count. -/
def KillerState.Inv (s : KillerState) : Prop :=
  (s.trace = [] ∨ (∃ b, s.trace = [Event.kill b]) ∧ s.procChan = false ∧ s.cancelled = false)
    ∧ (s.cmd.isSome = true → s.procChan = false)

/-- The value a signal delivers on `procChan`, if it is one. -/
def Signal.pidValue : Signal → Option Int
  | Signal.pid v => some v
  | Signal.closed => some 0
  | Signal.done => none

/-- Whether a signal is the cancellation. -/
def Signal.isDone : Signal → Bool
  | Signal.done => true
  | _ => false

/-- The locals of the killer in closed form: `fp` is the value received on
`procChan` so far and `dn` whether the cancellation has been handled. -/
def KillerState.canon (h : IPcapCommand) (fp : Option Int) (dn : Bool) : KillerState :=
  { procChan := fp.isNone,
    cancelled := !dn,
    cmd := if fp.isSome && fp != some 0 then some h else none,
    inLoop := fp.isNone || !dn,
    trace := if (fp.isSome && fp != some 0) && dn then [Event.kill true] else [] }

/-! ## Example collaborators -/

/-- An exit error as `Wait` returns it for a process that exits non-zero. -/
def demoExit : GoError :=
  { msg := "exit status 2", isExitError := true }

/-- A process handle that starts with pid 4242, prints one line and exits
non-zero. -/
def demoHandle : IPcapCommand :=
  { desc := "tshark -q -r a.pcap -z conv,eth",
    stdoutReader := Except.ok "Ethernet Conversations",
    start := none,
    pid := 4242,
    wait := some demoExit }

/-- A process handle whose `Start` fails. -/
def demoStartFails : IPcapCommand :=
  { demoHandle with start := some { msg := "executable file not found", isExitError := false } }

/-- A process handle whose `StdoutReader` fails. -/
def demoReaderFails : IPcapCommand :=
  { demoHandle with
    stdoutReader := Except.error { msg := "Stdout already set", isExitError := false } }

/-- A `Convs` command builder that answers with the example handle. -/
def demoConvsCmds : String → List String → String → Bool → Bool → IPcapCommand :=
  fun _ _ _ _ _ => demoHandle

/-- A `Convs` command builder whose handle cannot open its output. -/
def demoConvsCmdsReaderFails : String → List String → String → Bool → Bool → IPcapCommand :=
  fun _ _ _ _ _ => demoReaderFails

/-- A `Convs` command builder whose handle fails to start. -/
def demoConvsCmdsStartFails : String → List String → String → Bool → Bool → IPcapCommand :=
  fun _ _ _ _ _ => demoStartFails

/-- A `Capinfo` command builder that answers with the example handle. -/
def demoCapinfoCmds : String → IPcapCommand :=
  fun _ => demoHandle

/-- A sink that signals both acknowledgment channels. -/
def demoSink : Sink :=
  { dataAck := true, endAck := true }

/-- A sink that acknowledges the data notification and never the end
notification. -/
def demoSinkNoEndAck : Sink :=
  { dataAck := true, endAck := false }

/-- A leaf of a table: an entry with an empty map. -/
def demoLeaf : mapOrString :=
  mapOrString.mk (some [])

/-- A small table: protocols `tcp` (with three fields), `ip`, `tls`, `icmp`. -/
def demoTable : mapOrString :=
  mapOrString.mk (some
    [("tcp", some (mapOrString.mk (some
        [("port", some demoLeaf), ("flags.syn", some demoLeaf), ("po", some demoLeaf)]))),
     ("ip", some demoLeaf), ("tls", some demoLeaf), ("icmp", some demoLeaf)])

/-- Lines of the output of `tshark -G fields` from which `InitNoCache` builds
the example table. -/
def demoLines : List String :=
  ["P\tTransmission Control Protocol\ttcp",
   "F\tSource or Destination Port\ttcp.port\tFT_UINT16\ttcp",
   "F\tSyn\ttcp.flags.syn\tFT_BOOLEAN\ttcp",
   "F\tPayload offset\ttcp.po\tFT_UINT16\ttcp",
   "P\tInternet Protocol Version 4\tip",
   "P\tTransport Layer Security\ttls",
   "P\tInternet Control Message Protocol\ticmp"]

/-! # Theorems -/

/-! ### Lemmas on the argument loop -/

theorem setLast_append_two (xs : List String) (a b v : String) :
    setLast (xs ++ [a, b]) v = xs ++ [a, v] := by
  induction xs with
  | nil => rfl
  | cons x xs ih =>
    have h : (x :: xs ++ [a, b]).length - 1 = (xs ++ [a, b]).length - 1 + 1 := by
      simp
    unfold setLast at ih ⊢
    rw [h]
    simp only [List.cons_append, List.set_cons_succ, ih]

theorem lastArg_append_two (xs : List String) (a b : String) :
    lastArg (xs ++ [a, b]) = b := by
  unfold lastArg
  have h : (xs ++ [a, b]).length - 1 = xs.length + 1 := by simp
  rw [h, List.getD_eq_getElem?_getD, List.getElem?_append_right (Nat.le_succ _)]
  simp

theorem convsIter_eq (filter : String) (args : List String) (conv : String) :
    convsIter filter args conv = args ++ ["-z", convToken filter conv] := by
  unfold convsIter convToken
  by_cases hf : filter = ""
  · simp [hf]
  · simp [hf, setLast_append_two, lastArg_append_two]

theorem foldl_convsIter (filter : String) (convs args : List String) :
    convs.foldl (convsIter filter) args
      = args ++ convs.flatMap (fun conv => ["-z", convToken filter conv]) := by
  induction convs generalizing args with
  | nil => simp
  | cons c cs ih =>
    rw [List.foldl_cons, ih, convsIter_eq]
    simp [List.flatMap_cons]

/-- C1: the argument list built by `commands.Convs` is `-q -r pcapfile`, then
`-t a` exactly when absolute timestamps are requested, then `-n` exactly when
name resolution is disabled, then one `-z conv,<category>[,<filter>]` pair per
category in order, the filter being appended to the token exactly when it is
not empty. -/
theorem convs_args_exact (tsharkBin pcapfile : String) (convs : List String)
    (filter : String) (abs resolve : Bool) :
    (commands.Convs tsharkBin pcapfile convs filter abs resolve).args
        = ["-q", "-r", pcapfile]
          ++ (if abs then ["-t", "a"] else [])
          ++ (if !resolve then ["-n"] else [])
          ++ convs.flatMap (fun conv =>
              ["-z", if filter = "" then "conv," ++ conv
                     else "conv," ++ conv ++ "," ++ filter]) := by
  show convsArgs pcapfile convs filter abs resolve = _
  unfold convsArgs
  rw [foldl_convsIter]
  unfold convToken
  cases abs <;> cases resolve <;> simp

/-! ### The killer's select loop -/

theorem KillerState.inv_init : KillerState.init.Inv := by
  simp [KillerState.Inv, KillerState.init]

theorem killerStep_inv (o : Option IPcapCommand) (s : KillerState) (x : Signal)
    (h : s.Inv) : (killerStep o s x).Inv := by
  obtain ⟨pc, ca, cmd, il, tr⟩ := s
  simp only [KillerState.Inv] at h
  obtain ⟨h1, h2⟩ := h
  cases x <;> cases pc <;> cases ca <;> cases il <;>
    simp_all [killerStep, KillerState.Inv, KillerState.onPid, KillerState.onDone,
      KillerState.exitCheck, KillerState.kill]
  all_goals (try split)
  all_goals (try simp_all)
  all_goals (cases o <;> simp)

theorem foldl_killerStep_inv (o : Option IPcapCommand) (sigs : List Signal)
    (s : KillerState) (h : s.Inv) : (sigs.foldl (killerStep o) s).Inv := by
  induction sigs generalizing s with
  | nil => exact h
  | cons x xs ih => exact ih _ (killerStep_inv o s x h)

theorem killerLoop_inv (o : Option IPcapCommand) (sigs : List Signal) :
    (killerLoop o sigs).Inv :=
  foldl_killerStep_inv o sigs _ KillerState.inv_init

theorem killCount_waiter (c : Loader) (cmd : Option IPcapCommand) :
    killCount (waiter c cmd) = 0 := by
  unfold waiter killCount
  split
  · rfl
  · split
    · rfl
    · split
      · split
        · split <;> rfl
        · rfl
      · rfl

theorem killerStep_canon (h : IPcapCommand) (fp : Option Int) (dn : Bool) (x : Signal) :
    killerStep (some h) (KillerState.canon h fp dn) x
      = KillerState.canon h (fp <|> x.pidValue) (dn || x.isDone) := by
  rcases x with v | _ | _ <;> rcases fp with _ | w <;> cases dn <;>
    (try by_cases hv : v = 0) <;> (try by_cases hw : w = 0) <;>
    simp [killerStep, KillerState.canon, KillerState.onPid, KillerState.onDone,
      KillerState.exitCheck, KillerState.kill, Signal.pidValue, Signal.isDone, *]

theorem killerLoop_canon_aux (h : IPcapCommand) (sigs : List Signal) (fp : Option Int)
    (dn : Bool) :
    sigs.foldl (killerStep (some h)) (KillerState.canon h fp dn)
      = KillerState.canon h (fp <|> firstPid sigs) (dn || doneSeen sigs) := by
  induction sigs generalizing fp dn with
  | nil => simp [firstPid, doneSeen]
  | cons x xs ih =>
    rw [List.foldl_cons, killerStep_canon, ih]
    rcases x with v | _ | _ <;> cases fp <;> cases dn <;>
      simp [Signal.pidValue, Signal.isDone, firstPid, doneSeen]

theorem killerLoop_canon (h : IPcapCommand) (sigs : List Signal) :
    killerLoop (some h) sigs = KillerState.canon h (firstPid sigs) (doneSeen sigs) := by
  have := killerLoop_canon_aux h sigs none false
  simpa [killerLoop, KillerState.canon, KillerState.init] using this

theorem firstPid_append (a b : List Signal) :
    firstPid (a ++ b) = (firstPid a <|> firstPid b) := by
  induction a with
  | nil => simp [firstPid]
  | cons x xs ih => cases x <;> simp [firstPid, ih]

theorem doneSeen_append (a b : List Signal) :
    doneSeen (a ++ b) = (doneSeen a || doneSeen b) := by
  induction a with
  | nil => simp [doneSeen]
  | cons x xs ih => cases x <;> simp [doneSeen, ih]

/-- C2: whatever signals reach the killer's select loop, in whatever order and
however often, and whatever the original command, the loop has called `kill()`
zero times or once; the code after the loop adds no kill, so the same holds
for the whole goroutine. -/
theorem kill_at_most_once (c : Loader) (origCmd : Option IPcapCommand)
    (sigs : List Signal) :
    (killCount (killerLoop origCmd sigs).trace = 0
        ∨ killCount (killerLoop origCmd sigs).trace = 1)
      ∧ killCount (killerTask c sigs) ≤ 1 := by
  have key : ∀ o : Option IPcapCommand,
      killCount (killerLoop o sigs).trace = 0 ∨ killCount (killerLoop o sigs).trace = 1 := by
    intro o
    obtain ⟨h1, _⟩ := killerLoop_inv o sigs
    rcases h1 with h1 | ⟨⟨b, hb⟩, _, _⟩
    · left; rw [h1]; rfl
    · right; rw [hb]; rfl
  refine ⟨key origCmd, ?_⟩
  unfold killerTask
  simp only
  split
  · rcases key c.cmd with h | h <;> omega
  · have hw := killCount_waiter c (killerLoop c.cmd sigs).cmd
    unfold killCount at hw ⊢
    rw [List.countP_append, hw]
    have := key c.cmd
    unfold killCount at this
    omega

/-- C3: with a command to kill, after any sequence of signals the loop has
issued a kill exactly when a non-zero identifier has been received and the
cancellation has been handled; the kill is appended by the very iteration
that makes both true; it has left the loop exactly when a value (or the
closing) of the identifier channel and the cancellation have both been
handled; after a zero identifier or a closed channel there is no kill. -/
theorem kill_iff_pid_and_cancel (h : IPcapCommand) (sigs : List Signal) (x : Signal)
    (v : Int) :
    (killerLoop (some h) sigs).trace
        = (if validPid sigs && doneSeen sigs then [Event.kill true] else [])
      ∧ (killerLoop (some h) (sigs ++ [x])).trace
        = (killerLoop (some h) sigs).trace
          ++ (if (validPid (sigs ++ [x]) && doneSeen (sigs ++ [x]))
                && !(validPid sigs && doneSeen sigs) then [Event.kill true] else [])
      ∧ (killerLoop (some h) sigs).inLoop
        = !((firstPid sigs).isSome && doneSeen sigs)
      ∧ (killerLoop (some h) [Signal.pid v]).trace = []
      ∧ (killerLoop (some h) [Signal.done]).trace = []
      ∧ (killerLoop (some h) [Signal.pid v, Signal.done]).trace
        = (if v ≠ 0 then [Event.kill true] else [])
      ∧ (killerLoop (some h) [Signal.done, Signal.pid v]).trace
        = (if v ≠ 0 then [Event.kill true] else [])
      ∧ (killerLoop (some h) [Signal.pid v, Signal.done]).inLoop = false
      ∧ (killerLoop (some h) [Signal.done, Signal.pid v]).inLoop = false
      ∧ (killerLoop (some h) [Signal.closed, Signal.done]).trace = []
      ∧ (killerLoop (some h) [Signal.done, Signal.closed]).trace = []
      ∧ (killerLoop (some h) [Signal.closed, Signal.done]).inLoop = false
      ∧ (killerLoop (some h) [Signal.done, Signal.closed]).inLoop = false := by
  have closed : ∀ l : List Signal, (killerLoop (some h) l).trace
      = (if validPid l && doneSeen l then [Event.kill true] else []) := by
    intro l
    rw [killerLoop_canon]
    unfold KillerState.canon validPid
    cases firstPid l <;> simp
  have loop : ∀ l : List Signal, (killerLoop (some h) l).inLoop
      = !((firstPid l).isSome && doneSeen l) := by
    intro l
    rw [killerLoop_canon]
    unfold KillerState.canon
    cases firstPid l <;> cases doneSeen l <;> simp
  refine ⟨closed sigs, ?_, loop sigs, ?_, ?_, ?_, ?_, ?_, ?_, ?_, ?_, ?_, ?_⟩
  · rw [closed, closed]
    unfold validPid
    rw [firstPid_append, doneSeen_append]
    cases firstPid sigs <;> cases doneSeen sigs <;> cases x <;>
      simp [firstPid, doneSeen]
  all_goals first
    | (rw [closed]; by_cases hv : v = 0 <;> simp [validPid, firstPid, doneSeen, hv])
    | (rw [loop]; simp [firstPid, doneSeen])

/-- C7: when the process started with a valid identifier, the loop was left
and `Wait` returns an exit error, the goroutine's trace is the kill, the wait
and then nothing when errors are suppressed, else exactly one error
notification: `BadCommand` with the handle's description under `command` and
the exit error under `error`. -/
theorem waiter_reports_exit_error (c : Loader) (h : IPcapCommand) (e : GoError)
    (sigs : List Signal) (hc : c.cmd = some h) (hw : h.wait = some e)
    (he : e.isExitError = true) (hv : validPid sigs = true) (hd : doneSeen sigs = true) :
    waiter c (some h)
        = Event.wait ::
          (if c.SuppressErrors then []
           else [Event.handleError (ErrorValue.withKVs "BadCommand"
              [("command", KVValue.str h.desc), ("error", KVValue.err e)])])
      ∧ killerTask c sigs = Event.kill true :: waiter c (some h)
      ∧ errorCount (killerTask c sigs) = (if c.SuppressErrors then 0 else 1) := by
  have hwt : waiter c (some h)
        = Event.wait ::
          (if c.SuppressErrors then []
           else [Event.handleError (ErrorValue.withKVs "BadCommand"
              [("command", KVValue.str h.desc), ("error", KVValue.err e)])]) := by
    unfold waiter
    cases hs : c.SuppressErrors <;> simp [hw, he, hc]
  have hk : killerTask c sigs = Event.kill true :: waiter c (some h) := by
    unfold killerTask
    rw [hc, killerLoop_canon]
    unfold validPid at hv
    unfold KillerState.canon
    cases hf : firstPid sigs with
    | none => simp [hf] at hv
    | some w =>
      have hw0 : w ≠ 0 := by simpa [hf] using hv
      simp [hd, hw0]
  refine ⟨hwt, hk, ?_⟩
  rw [hk, hwt]
  cases c.SuppressErrors <;> rfl

/-- A run in which C7 applies: the example handle, pid first, then the
cancellation. -/
theorem waiter_reports_exit_error_witness :
    errorCount (killerTask { NewLoader with cmd := some demoHandle }
        [Signal.pid 4242, Signal.done]) = 1 :=
  (waiter_reports_exit_error { NewLoader with cmd := some demoHandle } demoHandle demoExit
    [Signal.pid 4242, Signal.done] rfl rfl rfl (by decide) (by decide)).2.2

/-! ### The load routine -/

theorem loadAsync_reader_fails (startMsg : String) (c : Loader) (h : IPcapCommand)
    (sink : Sink) (e : GoError) (hr : h.stdoutReader = Except.error e) :
    (loadAsync startMsg c h sink).trace
        = [Event.spawnKiller, Event.stdoutReader,
           Event.handleError (ErrorValue.plain e), Event.closeProcChan]
      ∧ (loadAsync startMsg c h sink).returned = true := by
  simp [loadAsync, loadBody, hr, runStmts, deferClose]

theorem loadAsync_start_fails (startMsg : String) (c : Loader) (h : IPcapCommand)
    (sink : Sink) (out : String) (e : GoError) (hr : h.stdoutReader = Except.ok out)
    (hs : h.start = some e) :
    (loadAsync startMsg c h sink).trace
        = [Event.spawnKiller, Event.stdoutReader, Event.handleBegin, Event.start,
           Event.handleError (ErrorValue.plain
             { msg := startMsg ++ h.desc ++ ": " ++ e.msg, isExitError := false }),
           Event.handleEnd, Event.afterEnd true]
          ++ (if sink.endAck then [Event.endAcked, Event.closeProcChan] else [])
      ∧ (loadAsync startMsg c h sink).returned = sink.endAck := by
  cases he : sink.endAck <;>
    simp [loadAsync, loadBody, hr, hs, runStmts, deferClose, deferAfterEnd,
      deferHandleEnd, he]

theorem loadAsync_started (startMsg : String) (c : Loader) (h : IPcapCommand)
    (sink : Sink) (out : String) (hr : h.stdoutReader = Except.ok out)
    (hs : h.start = none) :
    (loadAsync startMsg c h sink).trace
        = [Event.spawnKiller, Event.stdoutReader, Event.handleBegin, Event.start,
           Event.sendPid h.pid, Event.readFrom, Event.onData out]
          ++ (if sink.dataAck then
                [Event.dataAcked, Event.cancelFn, Event.handleEnd, Event.afterEnd true]
                  ++ (if sink.endAck then
                        Event.endAcked :: (if h.pid = 0 then [Event.closeProcChan] else [])
                      else [])
              else [])
      ∧ (loadAsync startMsg c h sink).returned = (sink.dataAck && sink.endAck) := by
  cases hd : sink.dataAck <;> cases he : sink.endAck <;> by_cases hp : h.pid = 0 <;>
    simp [loadAsync, loadBody, hr, hs, runStmts, deferClose, deferAfterEnd,
      deferHandleEnd, hd, he, hp]

/-- C4 (as stated, refuted): when `Start` fails and the sink never signals the
acknowledgment channel of the end notification, the routine stays blocked in
the deferred end notification; the deferred close, which runs last, is never
reached, so nothing is sent on `procChan`, it is not closed, and the killer
receives nothing from it. -/
theorem procChan_open_when_end_unacked :
    demoStartFails.stdoutReader = Except.ok "Ethernet Conversations"
      ∧ demoStartFails.start.isSome = true
      ∧ sendCount (loadConvAsync NewLoader demoConvsCmdsStartFails "a.pcap"
          ["eth"] "" false true demoSinkNoEndAck).trace = 0
      ∧ closeCount (loadConvAsync NewLoader demoConvsCmdsStartFails "a.pcap"
          ["eth"] "" false true demoSinkNoEndAck).trace = 0
      ∧ procChanSignal (loadConvAsync NewLoader demoConvsCmdsStartFails "a.pcap"
          ["eth"] "" false true demoSinkNoEndAck).trace = none
      ∧ (loadConvAsync NewLoader demoConvsCmdsStartFails "a.pcap"
          ["eth"] "" false true demoSinkNoEndAck).returned = false
      ∧ (loadConvAsync NewLoader demoConvsCmdsStartFails "a.pcap"
          ["eth"] "" false true demoSinkNoEndAck).trace
        = [Event.spawnKiller, Event.stdoutReader, Event.handleBegin, Event.start,
           Event.handleError (ErrorValue.plain
             { msg := "Error starting tshark -q -r a.pcap -z conv,eth: "
                 ++ "executable file not found",
               isExitError := false }),
           Event.handleEnd, Event.afterEnd true] := by
  refine ⟨rfl, rfl, ?_, ?_, ?_, ?_, ?_⟩ <;> decide

/-- C4 (amended): in a run of the load routine, when `Start` succeeds the pid
is sent once on `procChan` and the killer receives it, and with a non-zero pid
the channel is not closed; when `StdoutReader` fails nothing is sent and the
deferred function closes the channel once; when `Start` fails nothing is sent
and the deferred close, the last deferred function to run, closes the channel
once exactly when the end notification before it is acknowledged, the channel
staying open and the routine blocked otherwise.  On the closed channel the
killer receives the zero value, and its loop ends without a kill once the
cancellation is there too. -/
theorem procChan_resolved_once (startMsg : String) (c : Loader) (h : IPcapCommand)
    (sink : Sink) :
    (∀ out, h.stdoutReader = Except.ok out → h.start = none →
        sendCount (loadAsync startMsg c h sink).trace = 1
          ∧ procChanSignal (loadAsync startMsg c h sink).trace = some (Signal.pid h.pid)
          ∧ (h.pid ≠ 0 → closeCount (loadAsync startMsg c h sink).trace = 0))
      ∧ (∀ e, h.stdoutReader = Except.error e →
        sendCount (loadAsync startMsg c h sink).trace = 0
          ∧ closeCount (loadAsync startMsg c h sink).trace = 1
          ∧ procChanSignal (loadAsync startMsg c h sink).trace = some Signal.closed)
      ∧ (∀ out e, h.stdoutReader = Except.ok out → h.start = some e →
        sendCount (loadAsync startMsg c h sink).trace = 0
          ∧ closeCount (loadAsync startMsg c h sink).trace
              = (if sink.endAck then 1 else 0)
          ∧ procChanSignal (loadAsync startMsg c h sink).trace
              = (if sink.endAck then some Signal.closed else none)
          ∧ (loadAsync startMsg c h sink).returned = sink.endAck)
      ∧ firstPid [Signal.closed] = some 0
      ∧ (killerLoop (some h) [Signal.closed, Signal.done]).inLoop = false
      ∧ (killerLoop (some h) [Signal.done, Signal.closed]).inLoop = false
      ∧ (killerLoop (some h) [Signal.closed, Signal.done]).trace = []
      ∧ (killerLoop (some h) [Signal.done, Signal.closed]).trace = [] := by
  refine ⟨?_, ?_, ?_, rfl, ?_, ?_, ?_, ?_⟩
  · intro out hr hs
    rw [(loadAsync_started startMsg c h sink out hr hs).1]
    refine ⟨?_, ?_, ?_⟩
    · cases sink.dataAck <;> cases sink.endAck <;> by_cases hp : h.pid = 0 <;>
        simp [sendCount, List.countP_cons, hp]
    · simp [procChanSignal]
    · intro hp
      cases sink.dataAck <;> cases sink.endAck <;>
        simp [closeCount, List.countP_cons, hp]
  · intro e hr
    rw [(loadAsync_reader_fails startMsg c h sink e hr).1]
    simp [sendCount, closeCount, procChanSignal, List.countP_cons]
  · intro out e hr hs
    obtain ⟨ht, hret⟩ := loadAsync_start_fails startMsg c h sink out e hr hs
    rw [ht]
    refine ⟨?_, ?_, ?_, hret⟩ <;>
      cases sink.endAck <;>
        simp [sendCount, closeCount, procChanSignal, List.countP_cons]
  all_goals
    rw [killerLoop_canon]
    simp [KillerState.canon, firstPid, doneSeen]

/-- The cases of the amended C4 on the example handles: a successful start, a
failed `StdoutReader`, and a failed `Start` with and without an acknowledged
end notification. -/
theorem procChan_resolved_once_witness :
    procChanSignal (loadAsync "Error starting " NewLoader demoHandle demoSink).trace
        = some (Signal.pid 4242)
      ∧ procChanSignal (loadAsync "Error starting " NewLoader demoReaderFails demoSink).trace
        = some Signal.closed
      ∧ procChanSignal (loadAsync "Error starting " NewLoader demoStartFails demoSink).trace
        = (if demoSink.endAck then some Signal.closed else none)
      ∧ procChanSignal
          (loadAsync "Error starting " NewLoader demoStartFails demoSinkNoEndAck).trace
        = (if demoSinkNoEndAck.endAck then some Signal.closed else none) :=
  ⟨((procChan_resolved_once "Error starting " NewLoader demoHandle demoSink).1
      "Ethernet Conversations" rfl rfl).2.1,
   ((procChan_resolved_once "Error starting " NewLoader demoReaderFails demoSink).2.1
      { msg := "Stdout already set", isExitError := false } rfl).2.2,
   ((procChan_resolved_once "Error starting " NewLoader demoStartFails demoSink).2.2.1
      "Ethernet Conversations" { msg := "executable file not found", isExitError := false }
      rfl rfl).2.2.1,
   ((procChan_resolved_once "Error starting " NewLoader demoStartFails
      demoSinkNoEndAck).2.2.1
      "Ethernet Conversations" { msg := "executable file not found", isExitError := false }
      rfl rfl).2.2.1⟩

/-- C5: when `StdoutReader` succeeds and `Start` fails, the load routine makes
exactly one error notification, carrying the start error, and no data
notification; the killer, which can only receive the closing of `procChan`
and the cancellation, calls neither `kill` nor `Wait` and reports nothing, so
the whole job has one error notification and no data notification. -/
theorem start_failure_one_error (startMsg : String) (c : Loader) (h : IPcapCommand)
    (sink : Sink) (out : String) (e : GoError) (sigs : List Signal)
    (hr : h.stdoutReader = Except.ok out) (hs : h.start = some e)
    (hsig : ∀ x ∈ sigs, x = Signal.done
      ∨ procChanSignal (loadAsync startMsg c h sink).trace = some x) :
    errorCount (loadAsync startMsg c h sink).trace = 1
      ∧ Event.handleError (ErrorValue.plain
          { msg := startMsg ++ h.desc ++ ": " ++ e.msg, isExitError := false })
        ∈ (loadAsync startMsg c h sink).trace
      ∧ dataCount (loadAsync startMsg c h sink).trace = 0
      ∧ killerTask (loadAsync startMsg c h sink).loader sigs = []
      ∧ errorCount ((loadAsync startMsg c h sink).trace
          ++ killerTask (loadAsync startMsg c h sink).loader sigs) = 1
      ∧ dataCount ((loadAsync startMsg c h sink).trace
          ++ killerTask (loadAsync startMsg c h sink).loader sigs) = 0
      ∧ (loadAsync startMsg c h sink).returned = sink.endAck := by
  obtain ⟨ht, hret⟩ := loadAsync_start_fails startMsg c h sink out e hr hs
  have hnv : validPid sigs = false := by
    unfold validPid
    have : ∀ l : List Signal, (∀ x ∈ l, x = Signal.done
        ∨ procChanSignal (loadAsync startMsg c h sink).trace = some x) →
        firstPid l = none ∨ firstPid l = some 0 := by
      intro l
      induction l with
      | nil => intro _; left; rfl
      | cons y ys ih =>
        intro hl
        have hy := hl y (List.mem_cons_self _ _)
        have hys := ih (fun x hx => hl x (List.mem_cons_of_mem _ hx))
        rcases y with w | _ | _
        · rcases hy with hy | hy
          · cases hy
          · rw [ht] at hy
            cases hea : sink.endAck <;> simp [procChanSignal, hea] at hy
        · right; rfl
        · simpa [firstPid] using hys
    rcases this sigs hsig with h0 | h0 <;> simp [h0]
  have hk : killerTask (loadAsync startMsg c h sink).loader sigs = [] := by
    have hl : (loadAsync startMsg c h sink).loader.cmd = some h := rfl
    unfold killerTask
    rw [hl, killerLoop_canon]
    unfold validPid at hnv
    unfold KillerState.canon
    cases hf : firstPid sigs with
    | none => simp
    | some w =>
      have hw0 : w = 0 := by simpa [hf] using hnv
      simp [hw0, waiter]
  have he1 : errorCount (loadAsync startMsg c h sink).trace = 1 := by
    rw [ht]
    cases sink.endAck <;> simp [errorCount, List.countP_cons]
  have hd0 : dataCount (loadAsync startMsg c h sink).trace = 0 := by
    rw [ht]
    cases sink.endAck <;> simp [dataCount, List.countP_cons]
  refine ⟨he1, ?_, hd0, hk, ?_, ?_, hret⟩
  · rw [ht]; simp
  · rw [hk, List.append_nil]; exact he1
  · rw [hk, List.append_nil]; exact hd0

/-- A job to which C5 applies: `Start` fails, the killer sees the cancellation
and then the closed channel. -/
theorem start_failure_one_error_witness :
    demoStartFails.start = some { msg := "executable file not found", isExitError := false }
      ∧ errorCount ((loadAsync "Error starting " NewLoader demoStartFails demoSink).trace
          ++ killerTask (loadAsync "Error starting " NewLoader demoStartFails demoSink).loader
              [Signal.done, Signal.closed]) = 1 :=
  ⟨rfl,
   (start_failure_one_error "Error starting " NewLoader demoStartFails demoSink
      "Ethernet Conversations" { msg := "executable file not found", isExitError := false }
      [Signal.done, Signal.closed] rfl rfl (by decide)).2.2.2.2.1⟩

/-- C6 (as stated, refuted): in a successful run of `loadConvAsync` the calls
made on the sink are begin, data, `pcap.HandleEnd` and the end notification,
four calls and not the three `begin, data, end`. -/
theorem notifications_not_begin_data_end :
    notifications (loadConvAsync NewLoader demoConvsCmds "a.pcap" ["eth"] "" false true
        demoSink).trace
        = [Event.handleBegin, Event.onData "Ethernet Conversations", Event.handleEnd,
           Event.afterEnd true]
      ∧ notifications (loadConvAsync NewLoader demoConvsCmds "a.pcap" ["eth"] "" false true
          demoSink).trace
        ≠ [Event.handleBegin, Event.onData "Ethernet Conversations", Event.afterEnd true] := by
  constructor
  · decide
  · decide

/-- C6 (amended): when `StdoutReader` and `Start` succeed, the routine calls
begin, then `Start`, sends the pid, drains the output and hands it to the data
notification; only if that is acknowledged does it go on to call the job's
cancel function, then `pcap.HandleEnd`, then the end notification labeled
`true`, whose acknowledgment it awaits before returning.  The calls on the
sink are begin, data, `pcap.HandleEnd`, end, in that order. -/
theorem successful_run_order (startMsg : String) (c : Loader) (h : IPcapCommand)
    (sink : Sink) (out : String) (hr : h.stdoutReader = Except.ok out)
    (hs : h.start = none) :
    (loadAsync startMsg c h sink).trace
        = [Event.spawnKiller, Event.stdoutReader, Event.handleBegin, Event.start,
           Event.sendPid h.pid, Event.readFrom, Event.onData out]
          ++ (if sink.dataAck then
                [Event.dataAcked, Event.cancelFn, Event.handleEnd, Event.afterEnd true]
                  ++ (if sink.endAck then
                        Event.endAcked :: (if h.pid = 0 then [Event.closeProcChan] else [])
                      else [])
              else [])
      ∧ notifications (loadAsync startMsg c h sink).trace
        = [Event.handleBegin, Event.onData out]
          ++ (if sink.dataAck then [Event.handleEnd, Event.afterEnd true] else [])
      ∧ (loadAsync startMsg c h sink).returned = (sink.dataAck && sink.endAck) := by
  obtain ⟨ht, hret⟩ := loadAsync_started startMsg c h sink out hr hs
  refine ⟨ht, ?_, hret⟩
  rw [ht]
  cases sink.dataAck <;> cases sink.endAck <;> by_cases hp : h.pid = 0 <;>
    simp [notifications, List.filter_cons, hp]

/-- A successful run to which the amended C6 applies. -/
theorem successful_run_order_witness :
    demoHandle.start = none
      ∧ notifications (loadAsync "Error starting capinfo " NewLoader demoHandle demoSink).trace
        = [Event.handleBegin, Event.onData "Ethernet Conversations"]
          ++ (if demoSink.dataAck then [Event.handleEnd, Event.afterEnd true] else []) :=
  ⟨rfl,
   (successful_run_order "Error starting capinfo " NewLoader demoHandle demoSink
      "Ethernet Conversations" rfl rfl).2.1⟩

/-- C8 (as stated, refuted): when `StdoutReader` fails the routine returns
without any end notification. -/
theorem no_end_when_reader_fails :
    endCount (loadConvAsync NewLoader demoConvsCmdsReaderFails "a.pcap" ["eth"] "" false
        true demoSink).trace = 0
      ∧ (loadConvAsync NewLoader demoConvsCmdsReaderFails "a.pcap" ["eth"] "" false
        true demoSink).returned = true
      ∧ endCount (loadConvAsync NewLoader demoConvsCmdsReaderFails "a.pcap" ["eth"] ""
        false true demoSink).trace ≠ 1 := by
  refine ⟨?_, ?_, ?_⟩ <;> decide

/-- C8 (amended): when `StdoutReader` succeeds and either `Start` fails or the
data notification is acknowledged, the end notification fires exactly once
and is labeled `true`; when `StdoutReader` fails the routine reports the
error and returns with no end notification. -/
theorem end_fires_once_after_reader (startMsg : String) (c : Loader)
    (h : IPcapCommand) (sink : Sink) :
    (∀ out, h.stdoutReader = Except.ok out →
        (h.start.isSome = true ∨ sink.dataAck = true) →
        endCount (loadAsync startMsg c h sink).trace = 1
          ∧ Event.afterEnd true ∈ (loadAsync startMsg c h sink).trace
          ∧ Event.afterEnd false ∉ (loadAsync startMsg c h sink).trace)
      ∧ (∀ e, h.stdoutReader = Except.error e →
        endCount (loadAsync startMsg c h sink).trace = 0
          ∧ errorCount (loadAsync startMsg c h sink).trace = 1
          ∧ (loadAsync startMsg c h sink).returned = true) := by
  constructor
  · intro out hr hor
    cases hs : h.start with
    | some e =>
      rw [(loadAsync_start_fails startMsg c h sink out e hr hs).1]
      cases sink.endAck <;> simp [endCount, List.countP_cons]
    | none =>
      have hd : sink.dataAck = true := by
        rcases hor with h1 | h1
        · simp [hs] at h1
        · exact h1
      rw [(loadAsync_started startMsg c h sink out hr hs).1, hd]
      cases sink.endAck <;> by_cases hp : h.pid = 0 <;>
        simp [endCount, List.countP_cons, hp]
  · intro e hr
    obtain ⟨ht, hret⟩ := loadAsync_reader_fails startMsg c h sink e hr
    rw [ht]
    refine ⟨?_, ?_, hret⟩ <;> simp [endCount, errorCount, List.countP_cons]

/-- The cases of the amended C8 on the example handles: a failed start and a
drained run fire the end notification once, a failed `StdoutReader` never. -/
theorem end_fires_once_after_reader_witness :
    endCount (loadAsync "Error starting " NewLoader demoStartFails demoSink).trace = 1
      ∧ endCount (loadAsync "Error starting " NewLoader demoHandle demoSink).trace = 1
      ∧ endCount (loadAsync "Error starting " NewLoader demoReaderFails demoSink).trace = 0 :=
  ⟨((end_fires_once_after_reader "Error starting " NewLoader demoStartFails demoSink).1
      "Ethernet Conversations" rfl (Or.inl rfl)).1,
   ((end_fires_once_after_reader "Error starting " NewLoader demoHandle demoSink).1
      "Ethernet Conversations" rfl (Or.inr rfl)).1,
   ((end_fires_once_after_reader "Error starting " NewLoader demoReaderFails demoSink).2
      { msg := "Stdout already set", isExitError := false } rfl).1⟩

/-- C9 (as stated, refuted): after a job that ran to its acknowledged end
notification and returned, the loader's command field is still set. -/
theorem handle_not_released :
    (loadConvAsync NewLoader demoConvsCmds "a.pcap" ["eth"] "" false true
        demoSink).returned = true
      ∧ Event.endAcked ∈ (loadConvAsync NewLoader demoConvsCmds "a.pcap" ["eth"] "" false
          true demoSink).trace
      ∧ (loadConvAsync NewLoader demoConvsCmds "a.pcap" ["eth"] "" false true
          demoSink).loader.cmd.isSome = true
      ∧ (loadConvAsync NewLoader demoConvsCmds "a.pcap" ["eth"] "" false true
          demoSink).loader.cmd.isNone = false := by
  refine ⟨?_, ?_, rfl, rfl⟩ <;> decide

/-- C9 (amended): the command field is nil in a new loader; a job sets it to
the handle the command builder returned and nothing resets it, so after the
job, whatever its outcome, the field still holds that handle. -/
theorem handle_kept_after_job (c : Loader)
    (convCmds : String → List String → String → Bool → Bool → IPcapCommand)
    (capinfoCmds : String → IPcapCommand) (pcapf : String) (convs : List String)
    (filter : String) (abs resolve : Bool) (cb : Sink) :
    NewLoader.cmd.isNone = true
      ∧ (loadConvAsync c convCmds pcapf convs filter abs resolve cb).loader.cmd.isSome = true
      ∧ (loadConvAsync c convCmds pcapf convs filter abs resolve cb).loader.cmd
          = some (convCmds pcapf convs filter abs resolve)
      ∧ (loadCapinfoAsync c capinfoCmds pcapf cb).loader.cmd.isSome = true
      ∧ (loadCapinfoAsync c capinfoCmds pcapf cb).loader.cmd = some (capinfoCmds pcapf) :=
  ⟨rfl, rfl, rfl, rfl, rfl⟩

/-! ### `Completions` -/

theorem completionField_eq_lastWord (txt : String) : completionField txt = lastWord txt := by
  unfold completionField lastWord
  by_cases h1 : txt = ""
  · simp [h1]
  · cases h2 : endsInSpace txt
    · simp [h1]
      cases (Fields txt).getLast? <;> rfl
    · simp

theorem cutDot_none (l : List Char) : cutDot l = none ↔ '.' ∉ l := by
  induction l with
  | nil => simp [cutDot]
  | cons c cs ih =>
    unfold cutDot
    by_cases hc : c = '.'
    · simp [hc]
    · simp only [hc, if_false]
      cases hcd : cutDot cs with
      | none => simp [hcd] at ih; simp [ih, Ne.symm hc]
      | some p => simp [hcd] at ih; simp [ih]

theorem cutDot_some (l a b : List Char) :
    cutDot l = some (a, b) ↔ l = a ++ '.' :: b ∧ '.' ∉ a := by
  induction l generalizing a with
  | nil => simp [cutDot]
  | cons c cs ih =>
    unfold cutDot
    by_cases hc : c = '.'
    · subst hc
      simp only [if_true, Option.some.injEq, Prod.mk.injEq]
      constructor
      · rintro ⟨rfl, rfl⟩; simp
      · rintro ⟨h1, h2⟩
        cases a with
        | nil => simp at h1; simp [h1]
        | cons x xs => simp at h1 h2; exact absurd h1.1 h2.1
    · simp only [hc, if_false]
      cases hcd : cutDot cs with
      | none =>
        simp only [false_iff, reduceCtorEq]
        rintro ⟨h1, h2⟩
        cases a with
        | nil => simp at h1; exact hc h1.1
        | cons x xs =>
          simp at h1 h2
          have := (ih xs).2 ⟨h1.2, h2.2⟩
          simp [hcd] at this
      | some p =>
        obtain ⟨p1, p2⟩ := p
        simp only [Option.some.injEq, Prod.mk.injEq]
        have ih' := ih p1
        constructor
        · rintro ⟨rfl, rfl⟩
          have := (ih p1).1 (by rw [hcd])
          simp [this.1, this.2, Ne.symm hc]
        · rintro ⟨h1, h2⟩
          cases a with
          | nil => simp at h1; exact absurd h1.1 hc
          | cons x xs =>
            simp at h1 h2
            have := (ih xs).2 ⟨h1.2, h2.2⟩
            rw [hcd] at this
            simp at this
            simp [h1.1, this.1, this.2]

theorem join_one (k : String) : Join [k] "." = k := rfl

theorem join_two (a k : String) : Join [a, k] "." = a ++ "." ++ k := rfl

theorem completions_eq_sort_specList (t : mapOrString) (txt : String) :
    Completions (some t) txt = sortStrings (specList t (lastWord txt)) := by
  unfold Completions specList
  simp only [completionField_eq_lastWord]
  generalize lastWord txt = w
  unfold SplitN2
  cases hcd : cutDot w.data with
  | none =>
    simp [walk, topKeys, join_one]
  | some p =>
    obtain ⟨a, b⟩ := p
    simp only [walk, List.dropLast, List.foldl_cons, List.foldl_nil, walkStep, subKeys]
    cases hm : t.M with
    | none => simp [FieldMap.entries]
    | some m =>
      simp only [FieldMap.entries, Option.getD_some]
      cases hlk : m.lookup (String.mk a) with
      | none => simp
      | some v =>
        cases v with
        | none => simp
        | some val => simp [join_two]

theorem lookup_mem {β : Type} (l : List (String × β)) (a : String) (v : β)
    (h : l.lookup a = some v) : (a, v) ∈ l := by
  induction l with
  | nil => simp at h
  | cons p ps ih =>
    obtain ⟨k, x⟩ := p
    rw [List.lookup_cons] at h
    by_cases hk : a = k
    · subst hk
      simp at h
      simp [h]
    · have : (a == k) = false := by simpa using hk
      rw [this] at h
      exact List.mem_cons_of_mem _ (ih h)

theorem append_dot_injective (a : String) :
    Function.Injective (fun k : String => a ++ "." ++ k) := by
  intro k1 k2 h
  have := congrArg String.data h
  simp only [String.data_append, List.append_assoc] at this
  exact String.ext (List.append_cancel_left (List.append_cancel_left this))

theorem specList_nodup (t : mapOrString) (w : String) (hl : Loaded t) :
    (specList t w).Nodup := by
  unfold specList
  cases hcd : cutDot w.data with
  | none => exact hl.1.filter _
  | some p =>
    obtain ⟨a, b⟩ := p
    simp only
    cases hs : subKeys t (String.mk a) with
    | none => simp
    | some ks =>
      simp only
      have hks : ks.Nodup := by
        unfold subKeys at hs
        cases hlk : (FieldMap.entries t.M).lookup (String.mk a) with
        | none => simp [hlk] at hs
        | some v =>
          cases v with
          | none => simp [hlk] at hs
          | some val =>
            simp [hlk] at hs
            obtain ⟨v', hv', hnd⟩ := hl.2 _ (lookup_mem _ _ _ hlk)
            simp at hv'
            subst hv'
            rw [← hs]
            exact hnd
      exact (hks.filter _).map (append_dot_injective _)

theorem specList_prefix (t : mapOrString) (w c : String) (hc : c ∈ specList t w) :
    HasPrefix c w = true := by
  unfold specList at hc
  cases hcd : cutDot w.data with
  | none =>
    rw [hcd] at hc
    simp only [List.mem_filter] at hc
    exact hc.2
  | some p =>
    obtain ⟨a, b⟩ := p
    rw [hcd] at hc
    simp only at hc
    obtain ⟨hw, _⟩ := (cutDot_some _ _ _).1 hcd
    cases hs : subKeys t (String.mk a) with
    | none => simp [hs] at hc
    | some ks =>
      simp only [hs, List.mem_map, List.mem_filter] at hc
      obtain ⟨k, ⟨_, hk⟩, rfl⟩ := hc
      unfold HasPrefix at hk ⊢
      rw [List.isPrefixOf_iff_prefix] at hk ⊢
      rw [hw]
      simp only [String.data_append, List.append_assoc]
      obtain ⟨r, hr⟩ := hk
      refine ⟨r, ?_⟩
      simp [← hr]

theorem specList_mem (t : mapOrString) (w c : String) :
    c ∈ specList t w ↔ IsCompletion t w c := by
  unfold specList IsCompletion
  cases hcd : cutDot w.data with
  | none =>
    have hnd := (cutDot_none _).1 hcd
    simp only [List.mem_filter]
    constructor
    · rintro ⟨h1, h2⟩
      exact Or.inl ⟨hnd, h1, h2⟩
    · rintro (⟨_, h1, h2⟩ | ⟨a, b, hw, _, _⟩)
      · exact ⟨h1, h2⟩
      · exfalso
        apply hnd
        rw [hw]
        simp only [String.data_append, List.append_assoc]
        simp
  | some p =>
    obtain ⟨a, b⟩ := p
    obtain ⟨hw, hna⟩ := (cutDot_some _ _ _).1 hcd
    simp only
    constructor
    · intro hc
      right
      refine ⟨String.mk a, String.mk b, ?_, hna, ?_⟩
      · apply String.ext
        rw [hw]
        simp only [String.data_append, List.append_assoc]
        rfl
      · cases hs : subKeys t (String.mk a) with
        | none => simp [hs] at hc
        | some ks =>
          simp only [hs, List.mem_map, List.mem_filter] at hc
          obtain ⟨k, ⟨hk1, hk2⟩, rfl⟩ := hc
          exact ⟨ks, rfl, k, hk1, hk2, rfl⟩
    · rintro (⟨hnd, _, _⟩ | ⟨a', b', hw', hna', ks, hs, k, hk1, hk2, rfl⟩)
      · exfalso
        apply hnd
        rw [hw]
        simp
      · have hcd' : cutDot w.data = some (a'.data, b'.data) := by
          rw [cutDot_some]
          refine ⟨?_, hna'⟩
          rw [hw']
          simp only [String.data_append, List.append_assoc]
          rfl
        rw [hcd] at hcd'
        simp only [Option.some.injEq, Prod.mk.injEq] at hcd'
        obtain ⟨rfl, rfl⟩ := hcd'
        simp only [hs, List.mem_map, List.mem_filter]
        exact ⟨k, ⟨hk1, hk2⟩, rfl⟩

theorem sortStrings_perm (l : List String) : (sortStrings l).Perm l :=
  List.perm_insertionSort strLE l

theorem sortStrings_sorted (l : List String) : (sortStrings l).Sorted strLE :=
  List.sorted_insertionSort strLE l

theorem sortStrings_strict (l : List String) (hn : l.Nodup) :
    (sortStrings l).Sorted (fun a b : String => a < b) := by
  have h1 : (sortStrings l).Pairwise strLE := sortStrings_sorted l
  have h2 : (sortStrings l).Pairwise (fun a b => a ≠ b) :=
    ((sortStrings_perm l).nodup_iff.2 hn)
  refine (h1.and h2).imp ?_
  rintro a b ⟨hle, hne⟩
  exact String.lt_iff_toList_lt.2 (lt_of_le_of_ne hle (fun hd => hne (String.ext hd)))

theorem sortStrings_congr (l m : List String) (h : l.Perm m) :
    sortStrings l = sortStrings m :=
  List.eq_of_perm_of_sorted
    (((sortStrings_perm l).trans h).trans (sortStrings_perm m).symm)
    (sortStrings_sorted l) (sortStrings_sorted m)

theorem specList_perm (t u : mapOrString) (w : String) (h : SameMaps t u) :
    (specList t w).Perm (specList u w) := by
  unfold specList
  cases hcd : cutDot w.data with
  | none => exact h.1.filter _
  | some p =>
    obtain ⟨a, b⟩ := p
    simp only
    have h2 := h.2 (String.mk a)
    cases hs : subKeys t (String.mk a) with
    | none =>
      cases hs' : subKeys u (String.mk a) with
      | none => exact List.Perm.refl _
      | some ls => simp [hs, hs'] at h2
    | some ks =>
      cases hs' : subKeys u (String.mk a) with
      | none => simp [hs, hs'] at h2
      | some ls =>
        simp only [hs, hs'] at h2
        exact (h2.filter _).map _

/-- C10: on a loaded table, the list `Completions` hands to the callback is
strictly ascending (sorted and free of duplicates) and holds exactly the
completions of the last word `w` of the text: the top-level keys with prefix
`w` when `w` has no dot, and for `w = a.b` cut at the first dot the strings
`a.k` for the keys `k` under `a` with prefix `b`, none when `a` is no
top-level key.  Every completion has `w` as a prefix, and a table holding
the same maps visited in another order gives the same list. -/
theorem completions_exact (t : mapOrString) (txt : String) (hl : Loaded t) :
    (Completions (some t) txt).Sorted (fun a b : String => a < b)
      ∧ (∀ c, c ∈ Completions (some t) txt ↔ IsCompletion t (lastWord txt) c)
      ∧ (∀ c, c ∈ Completions (some t) txt → HasPrefix c (lastWord txt) = true)
      ∧ (∀ u, SameMaps t u → Completions (some u) txt = Completions (some t) txt) := by
  refine ⟨?_, ?_, ?_, ?_⟩
  · rw [completions_eq_sort_specList]
    exact sortStrings_strict _ (specList_nodup t _ hl)
  · intro c
    rw [completions_eq_sort_specList, (sortStrings_perm _).mem_iff]
    exact specList_mem t _ c
  · intro c hc
    rw [completions_eq_sort_specList, (sortStrings_perm _).mem_iff] at hc
    exact specList_prefix t _ c hc
  · intro u hu
    rw [completions_eq_sort_specList, completions_eq_sort_specList]
    exact (sortStrings_congr _ _ (specList_perm t u _ hu)).symm

/-! ### The tables `InitNoCache` builds -/

theorem lookup_none_not_mem {β : Type} (l : List (String × β)) (a : String)
    (h : l.lookup a = none) : a ∉ l.map Prod.fst := by
  induction l with
  | nil => simp
  | cons p ps ih =>
    obtain ⟨k, x⟩ := p
    rw [List.lookup_cons] at h
    by_cases hk : a = k
    · subst hk; simp at h
    · have : (a == k) = false := by simpa using hk
      rw [this] at h
      simp [hk, ih h]

theorem setValue_keys (es : List (String × Option mapOrString)) (k : String)
    (v : Option mapOrString) : (setValue es k v).map Prod.fst = es.map Prod.fst := by
  unfold setValue
  rw [List.map_map]
  apply List.map_congr_left
  intro p _
  by_cases hp : p.1 = k <;> simp [hp]

theorem mem_setValue (es : List (String × Option mapOrString)) (k : String)
    (v : Option mapOrString) (p : String × Option mapOrString)
    (hp : p ∈ setValue es k v) : p ∈ es ∨ p.2 = v := by
  unfold setValue at hp
  rw [List.mem_map] at hp
  obtain ⟨q, hq, rfl⟩ := hp
  by_cases hk : q.1 = k
  · right; simp [hk]
  · left; simpa [hk] using hq

theorem nodup_keys_append (es : List (String × Option mapOrString)) (k : String)
    (v : Option mapOrString) (hn : (es.map Prod.fst).Nodup) (hl : es.lookup k = none) :
    ((es ++ [(k, v)]).map Prod.fst).Nodup := by
  rw [List.map_append, List.nodup_append]
  refine ⟨hn, by simp, ?_⟩
  intro a ha hb
  simp at hb
  subst hb
  exact lookup_none_not_mem es _ hl ha

theorem newNode_ok : NodeOk newNode :=
  ⟨[], rfl, by simp⟩

theorem insertPath_one (b : String) (v v' : mapOrString) (hv : NodeOk v)
    (h : insertPath [b] v = some v') : NodeOk v' := by
  obtain ⟨es, hM, hn⟩ := hv
  simp only [insertPath, hM] at h
  cases hl : es.lookup b with
  | none =>
    simp only [hl, Option.some.injEq] at h
    subst h
    exact ⟨_, rfl, nodup_keys_append es b _ hn hl⟩
  | some x =>
    cases x with
    | none =>
      simp [hl] at h
      subst h
      exact ⟨es, hM, hn⟩
    | some val =>
      simp only [hl, Option.some.injEq] at h
      subst h
      exact ⟨_, rfl, by rw [setValue_keys]; exact hn⟩

theorem insertPath_two (a b : String) (t t' : mapOrString) (ht : TableOk t)
    (h : insertPath [a, b] t = some t') : TableOk t' := by
  obtain ⟨es, hM, hn, hv⟩ := ht
  rw [insertPath] at h
  simp only [hM] at h
  cases hl : es.lookup a with
  | none =>
    simp only [hl] at h
    cases hi : insertPath [b] newNode with
    | none => simp [hi] at h
    | some next =>
      simp only [hi, Option.some.injEq] at h
      subst h
      refine ⟨_, rfl, nodup_keys_append es a _ hn hl, ?_⟩
      intro p hp
      rw [List.mem_append] at hp
      rcases hp with hp | hp
      · exact hv p hp
      · simp at hp
        subst hp
        exact ⟨next, rfl, insertPath_one b _ _ newNode_ok hi⟩
  | some x =>
    cases x with
    | none => simp [hl] at h
    | some val =>
      simp only [hl] at h
      obtain ⟨v0, hv0, hok⟩ := hv _ (lookup_mem _ _ _ hl)
      simp at hv0
      subst hv0
      cases hi : insertPath [b] val with
      | none => simp [hi] at h
      | some val' =>
        simp only [hi, Option.some.injEq] at h
        subst h
        refine ⟨_, rfl, by rw [setValue_keys]; exact hn, ?_⟩
        intro p hp
        rcases mem_setValue _ _ _ _ hp with hp | hp
        · exact hv p hp
        · exact ⟨val', hp, insertPath_one b _ _ hok hi⟩

theorem splitN2_length (s : String) :
    (SplitN2 s).length > 1 → ∃ a b, SplitN2 s = [a, b] := by
  unfold SplitN2
  cases cutDot s.data with
  | none => simp
  | some p => intro _; exact ⟨_, _, rfl⟩

theorem initLine_ok (top t : mapOrString) (line : String) (ht : TableOk top)
    (h : initLine top line = some t) : TableOk t := by
  unfold initLine at h
  split at h
  · split at h
    · simp at h
    · rename_i field _
      simp only at h
      split at h
      · rename_i hlen
        obtain ⟨a, b, hab⟩ := splitN2_length field hlen
        rw [hab] at h
        exact insertPath_two a b top t ht h
      · simp at h; subst h; exact ht
  · split at h
    · split at h
      · simp at h
      · rename_i field _
        obtain ⟨es, hM, hn, hv⟩ := ht
        simp only [hM] at h
        cases hl : es.lookup field with
        | some x =>
          simp [hl] at h
          subst h
          exact ⟨es, hM, hn, hv⟩
        | none =>
          simp only [hl, Option.some.injEq] at h
          subst h
          refine ⟨_, rfl, nodup_keys_append es field _ hn hl, ?_⟩
          intro p hp
          rw [List.mem_append] at hp
          rcases hp with hp | hp
          · exact hv p hp
          · simp at hp
            subst hp
            exact ⟨newNode, rfl, newNode_ok⟩
    · simp at h; subst h; exact ht

theorem foldlM_initLine_ok (lines : List String) (top t : mapOrString) (ht : TableOk top)
    (h : lines.foldlM initLine top = some t) : TableOk t := by
  induction lines generalizing top with
  | nil => simp at h; subst h; exact ht
  | cons l ls ih =>
    rw [List.foldlM_cons] at h
    cases hi : initLine top l with
    | none => simp [hi] at h
    | some top' =>
      simp [hi] at h
      exact ih top' (initLine_ok top top' l ht hi) h

theorem tableOk_loaded (t : mapOrString) (ht : TableOk t) : Loaded t := by
  obtain ⟨es, hM, hn, hv⟩ := ht
  refine ⟨by simpa [topKeys, FieldMap.keys, FieldMap.entries, hM] using hn, ?_⟩
  intro p hp
  simp only [FieldMap.entries, hM, Option.getD_some] at hp
  obtain ⟨v, hpv, es', hM', hn'⟩ := hv p hp
  exact ⟨v, hpv, by simpa [FieldMap.keys, FieldMap.entries, hM'] using hn'⟩

/-- Every table `InitNoCache` builds is loaded. -/
theorem InitNoCache_loaded (lines : List String) (t : mapOrString)
    (h : InitNoCache lines = some t) : Loaded t :=
  tableOk_loaded t (foldlM_initLine_ok lines newNode t ⟨[], rfl, by simp, by simp⟩ h)

theorem demoTable_built : InitNoCache demoLines = some demoTable := by
  rfl

/-- The example table is the one `InitNoCache` builds from the example lines,
it is loaded, and on it the completions of `ip && tcp.p` are those of C10. -/
theorem completions_exact_witness :
    Loaded demoTable
      ∧ Completions (some demoTable) "ip && tcp.p" = ["tcp.po", "tcp.port"]
      ∧ (∀ c, c ∈ Completions (some demoTable) "ip && tcp.p"
          ↔ IsCompletion demoTable (lastWord "ip && tcp.p") c) :=
  ⟨InitNoCache_loaded demoLines demoTable demoTable_built, by decide,
   (completions_exact demoTable "ip && tcp.p"
      (InitNoCache_loaded demoLines demoTable demoTable_built)).2.1⟩

end Termshark
